import Mathlib

/-!
Verification of the `store` state-orchestration layer (`src/index.ts`).

We shallowly embed the action-dispatch lifecycle engine, the argument-dedup
cache, the deferred-completion bridge, the nested-store composition and the
subscription notifier of the `Store` class.  JavaScript values are embedded
as the inductive `JSVal` (objects carry an identity for `===` comparisons);
the single-threaded cooperative scheduling of the host is embedded by
splitting every async invocation into its synchronous entry segment
(`invokeAsyncStart`, up to the first `await`) and its settlement continuation
(`settleAsyncSuccess` / `settleAsyncError`), each an explicit state
transformer on the system state `Sys`.
-/

/-- A JavaScript value.  Objects are represented by an identity token so that
strict equality `===` on objects is identity comparison.  (NaN is not
modelled; numbers are exact.) -/
inductive JSVal where
  | null
  | undefined
  | bool (b : Bool)
  | num (n : Int)
  | str (s : String)
  | obj (id : Nat)
deriving DecidableEq

/-- JavaScript truthiness of a value. -/
def truthy : JSVal → Bool
  | .null => false
  | .undefined => false
  | .bool b => b
  | .num n => n != 0
  | .str s => !s.isEmpty
  | .obj _ => true

/-- JavaScript strict equality `===` on embedded values. -/
def jsEq : JSVal → JSVal → Bool
  | .null, .null => true
  | .undefined, .undefined => true
  | .bool a, .bool b => a == b
  | .num a, .num b => a == b
  | .str a, .str b => a == b
  | .obj a, .obj b => a == b
  | _, _ => false

/-- JavaScript loose equality with `null` (`x == null`): true exactly for
`null` and `undefined`.  Used by `createReducer`'s `state == null` check. -/
def isNullish : JSVal → Bool
  | .null => true
  | .undefined => true
  | _ => false

/-- The three lifecycle states of an async action (`ActionStates` in
`utils/action-type-manager`). -/
inductive ActionState where
  | START
  | SUCCESS
  | ERROR
deriving DecidableEq

/-- A dedup cache key: either a scalar value or an array of values
(`cachedArguments` on an action's metadata is the raw argument array for
`cache: true`, or whatever the `cache` projection function returned). -/
inductive CacheKey where
  | scalar (v : JSVal)
  | arr (l : List JSVal)
deriving DecidableEq

/-- The `.length` property of a cache key: arrays and strings have a length,
other scalars yield `undefined` (modelled as `none`). -/
def keyLength : CacheKey → Option Nat
  | .arr l => some l.length
  | .scalar (.str s) => some s.length
  | .scalar _ => none

/-- Indexing `key[i]` on a cache key: array indexing, string indexing
(yielding a one-character string), `undefined` otherwise. -/
def keyIndex : CacheKey → Nat → JSVal
  | .arr l, i => l.getD i .undefined
  | .scalar (.str s), i =>
      match s.toList.get? i with
      | some c => .str c.toString
      | none => .undefined
  | .scalar _, _ => .undefined

/-- Strict equality `===` between cache keys.  Scalars compare by value /
object identity; a freshly computed array key is never reference-equal to the
stored one (the arguments array is fresh on every call), so any comparison
involving an array is `false`. -/
def keysStrictEq : CacheKey → CacheKey → Bool
  | .scalar a, .scalar b => jsEq a b
  | _, _ => false

/-- The per-action `cache` option: absent, `true` (use the raw argument
array), or a projection function of the arguments. -/
inductive CacheOpt where
  | none
  | ctrue
  | cfn (f : List JSVal → CacheKey)

/-- The per-action declared options `{ cache?, latest? }`. -/
structure ActionOpts where
  latest : Bool
  cache : CacheOpt

/-- The cache key computed from the call arguments
(`meta.opts.cache === true ? args : meta.opts.cache(args)`). -/
def newKeyOf : CacheOpt → List JSVal → CacheKey
  | .none, args => .arr args
  | .ctrue, args => .arr args
  | .cfn f, args => f args

/-- `Store.checkCachedArguments`: decides whether the action should run and
returns the (possibly updated) stored cache key, mirroring the mutation of
`meta.cachedArguments`.  Returns `true` to run, `false` to suppress. -/
def checkCachedArguments (cache : CacheOpt) (cached : Option CacheKey)
    (args : List JSVal) : Bool × Option CacheKey :=
  match cache with
  | .none => (true, cached)
  | _ =>
    let newKey := newKeyOf cache args
    match cached with
    | Option.none => (true, some newKey)
    | some (.scalar s) =>
        if keysStrictEq newKey (.scalar s) then (false, some (.scalar s))
        else (true, some newKey)
    | some (.arr os) =>
        if os.length == 0 && keyLength newKey == some 0 then (true, some (.arr os))
        else if keyLength newKey != some os.length then (true, some newKey)
        else if (List.range os.length).all
            (fun i => jsEq (keyIndex newKey i) (os.getD i .undefined)) then
          (false, some (.arr os))
        else (true, some newKey)

/-- Modelled from the spec: the `Deferred` utility (`src/utils/deferred`,
not present under `src/`).  A single-resolution future: `settled` is `none`
while pending, `some (true, _)` once resolved, `some (false, e)` once
rejected with `e`; `subscribedTo` is the flag set by `waitForAction`;
`prev` is the deferred this one was chained from
(`new Deferred(action.deferred)`), so that settling this one also settles
the previous unresolved one. -/
structure DeferredRec where
  prev : Option Nat
  settled : Option (Bool × JSVal)
  subscribedTo : Bool
deriving DecidableEq

/-- The heap of all deferred objects created so far, addressed by creation
index. -/
def DHeap := Nat → Option DeferredRec

/-- Write one cell of the deferred heap. -/
def heapSet (h : DHeap) (i : Nat) (d : DeferredRec) : DHeap :=
  fun n => if n = i then some d else h n

/-- Modelled from the spec: settling a chained `Deferred` settles it
exactly once (no-op when already settled) and propagates the settlement to
the `prev` deferred it was chained from, so a superseded invocation's
deferred still receives its completion signal.  `fuel` bounds the chain
walk (chain links always point to earlier creation indices). -/
def settleChain (h : DHeap) (fuel : Nat) (i : Nat) (outcome : Bool × JSVal) : DHeap :=
  match fuel with
  | 0 => h
  | fuel + 1 =>
    match h i with
    | Option.none => h
    | some d =>
      if d.settled.isSome then h
      else
        let h1 := heapSet h i { d with settled := some outcome }
        match d.prev with
        | Option.none => h1
        | some p => settleChain h1 fuel p outcome

/-- Payload of one dispatch to the underlying store: a single value or the
full argument list. -/
inductive DispatchPayload where
  | val (v : JSVal)
  | vals (l : List JSVal)
deriving DecidableEq

/-- One call of `this.getStore().dispatch({type, payload})`: the lifecycle
suffix carried by the type (`none` for the bare scoped type) and the
payload. -/
structure DEvt where
  state : Option ActionState
  payload : DispatchPayload
deriving DecidableEq

/-- The mutable state touched by one action instance and its declaration:
`meta.callCount`, `meta.cachedArguments`, the deferred heap and
`action.deferred`, the action instance's lifecycle `action.state`, the
lifecycle-subscriber notifications, the dispatches sent to the underlying
store, the error-sink invocations, and a counter of payload-creator runs. -/
structure Sys where
  callCount : Nat
  cached : Option CacheKey
  heap : DHeap
  nextId : Nat
  actionDeferred : Option Nat
  actionLifecycle : Option ActionState
  lifecycleNotifies : List ActionState
  dispatched : List DEvt
  errors : List JSVal
  payloadRuns : Nat

/-- The initial system state: no calls yet, no cached key, empty deferred
heap, idle action instance. -/
def sys0 : Sys :=
  { callCount := 0, cached := Option.none, heap := fun _ => Option.none, nextId := 0,
    actionDeferred := Option.none, actionLifecycle := Option.none,
    lifecycleNotifies := [], dispatched := [], errors := [], payloadRuns := 0 }

/-- `Store.setActionStateAndDispatch`: set `action.state`, notify the
lifecycle subscribers, then dispatch the lifecycle-suffixed variant to the
underlying store. -/
def setActionStateAndDispatch (s : Sys) (st : ActionState) (p : DispatchPayload) : Sys :=
  { s with actionLifecycle := some st,
           lifecycleNotifies := s.lifecycleNotifies ++ [st],
           dispatched := s.dispatched ++ [⟨some st, p⟩] }

/-- The START payload computed in `dispatch`:
`actionCreatorArgs.length <= 1 ? actionCreatorArgs[1] : actionCreatorArgs`
(indexing past the end of the argument list yields `undefined`). -/
def startPayload (args : List JSVal) : DispatchPayload :=
  if args.length ≤ 1 then .val (args.getD 1 .undefined) else .vals args

/-- Result of entering a declared action: suppressed by the dedup gate
(an already-resolved empty promise is returned), or launched with the call
number captured by `wrapPayloadCreator` (`++meta.callCount`). -/
inductive InvokeOutcome where
  | vetoed
  | launched (callNumber : Nat)
deriving DecidableEq

/-- The synchronous entry segment of invoking an async-declared action: the
dedup gate of the action closure in `createActions`, the synchronous part of
the wrapped async payload creator (`bound(...args)` runs the payload
creator, then `callNumber = ++meta.callCount`), and `dispatch` up to the
first `await`: `action.deferred = new Deferred(action.deferred)` and the
START dispatch via `setActionStateAndDispatch`. -/
def invokeAsyncStart (s : Sys) (opts : ActionOpts) (args : List JSVal) :
    Sys × InvokeOutcome :=
  let chk := checkCachedArguments opts.cache s.cached args
  let s1 : Sys := { s with cached := chk.2 }
  if chk.1 then
    let s2 : Sys := { s1 with payloadRuns := s1.payloadRuns + 1 }
    let cn := s2.callCount + 1
    let s3 : Sys := { s2 with callCount := cn }
    let s4 : Sys :=
      { s3 with
        heap := heapSet s3.heap s3.nextId
          { prev := s3.actionDeferred, settled := Option.none, subscribedTo := false },
        actionDeferred := some s3.nextId,
        nextId := s3.nextId + 1 }
    let s5 := setActionStateAndDispatch s4 .START (startPayload args)
    (s5, .launched cn)
  else (s1, .vetoed)

/-- The `await payload` result seen by `dispatch` on the success path: the
wrapped creator's "latest" staleness check
(`if (meta.opts.latest && callNumber !== meta.callCount) return null`)
followed by the `await payload || null` coercion. -/
def successData (opts : ActionOpts) (callCountNow cn : Nat) (v : JSVal) : JSVal :=
  let w := if opts.latest ∧ cn ≠ callCountNow then JSVal.null else v
  if truthy w then w else JSVal.null

/-- The conditional SUCCESS dispatch of `dispatch`'s success path:
`if (data !== null) setActionStateAndDispatch(action, tm, SUCCESS, selectGlobalState(data))`. -/
def successDispatchPhase (s : Sys) (sg : JSVal → JSVal) (data : JSVal) : Sys :=
  if data = JSVal.null then s
  else setActionStateAndDispatch s .SUCCESS (.val (sg data))

/-- The success-path tail of `dispatch`:
`if (action.deferred) action.deferred.resolve(); action.deferred = null`. -/
def resolveClearPhase (s : Sys) : Sys :=
  let s2 :=
    match s.actionDeferred with
    | some i => { s with heap := settleChain s.heap s.nextId i (true, .undefined) }
    | Option.none => s
  { s2 with actionDeferred := Option.none }

/-- The settlement continuation of an async invocation whose raw payload
promise resolved with `v`: staleness check and `|| null` coercion,
conditional SUCCESS dispatch, resolving the current deferred if one is
present, and clearing `action.deferred`.  Returns the value handed back to
the caller. -/
def settleAsyncSuccess (s : Sys) (opts : ActionOpts) (sg : JSVal → JSVal)
    (cn : Nat) (v : JSVal) : Sys × JSVal :=
  let data := successData opts s.callCount cn v
  (resolveClearPhase (successDispatchPhase s sg data), data)

/-- The error-path tail of `dispatch`:
`if (action.deferred && action.deferred.subscribedTo) action.deferred.reject(error); action.deferred = null`. -/
def rejectClearPhase (s : Sys) (e : JSVal) : Sys :=
  let s2 :=
    match s.actionDeferred with
    | some i =>
      match s.heap i with
      | some d =>
          if d.subscribedTo then
            { s with heap := settleChain s.heap s.nextId i (false, e) }
          else s
      | Option.none => s
    | Option.none => s
  { s2 with actionDeferred := Option.none }

/-- The settlement continuation of an async invocation whose raw payload
promise rejected with `e`: the wrapped creator's catch invokes the error
sink (`handleError`) and rethrows; `dispatch`'s catch dispatches the ERROR
variant, rejects the current deferred only if it was subscribed, clears
`action.deferred` and rethrows `e` (the returned value). -/
def settleAsyncError (s : Sys) (e : JSVal) : Sys × JSVal :=
  let s1 := setActionStateAndDispatch { s with errors := s.errors ++ [e] } .ERROR (.val e)
  (rejectClearPhase s1 e, e)

/-- Result of invoking a sync-declared action with a non-promise payload. -/
inductive SyncOutcome where
  | suppressed
  | value (v : JSVal)
deriving DecidableEq

/-- Invoking a sync-declared action whose payload creator returned the plain
value `p`: the same dedup gate, the sync wrapper (`meta.callCount++` before
running the creator), then `dispatch`'s synchronous tail: a new chained
deferred, one dispatch of the bare type with the projected payload,
resolution of the deferred, and clearing of `action.deferred`. -/
def invokeSync (s : Sys) (opts : ActionOpts) (sg : JSVal → JSVal)
    (args : List JSVal) (p : JSVal) : Sys × SyncOutcome :=
  let chk := checkCachedArguments opts.cache s.cached args
  let s1 : Sys := { s with cached := chk.2 }
  if chk.1 then
    let s2 : Sys := { s1 with callCount := s1.callCount + 1 }
    let s3 : Sys := { s2 with payloadRuns := s2.payloadRuns + 1 }
    let s4 : Sys :=
      { s3 with
        heap := heapSet s3.heap s3.nextId
          { prev := s3.actionDeferred, settled := Option.none, subscribedTo := false },
        actionDeferred := some s3.nextId,
        nextId := s3.nextId + 1 }
    let s5 : Sys := { s4 with dispatched := s4.dispatched ++ [⟨Option.none, .val (sg p)⟩] }
    let s6 :=
      match s5.actionDeferred with
      | some i => { s5 with heap := settleChain s5.heap s5.nextId i (true, .undefined) }
      | Option.none => s5
    ({ s6 with actionDeferred := Option.none }, .value p)
  else (s1, .suppressed)

/-- Result of `waitForAction`: immediate return (no in-flight invocation) or
suspension on the deferred with the given index. -/
inductive WaitOutcome where
  | immediate
  | waiting (i : Nat)
deriving DecidableEq

/-- `waitForAction`: if the action's deferred is `null` return immediately;
otherwise set `subscribedTo` and return its promise (modelled as the index
the waiter observes). -/
def waitForAction (s : Sys) : Sys × WaitOutcome :=
  match s.actionDeferred with
  | Option.none => (s, .immediate)
  | some i =>
    match s.heap i with
    | some d => ({ s with heap := heapSet s.heap i { d with subscribedTo := true } }, .waiting i)
    | Option.none => (s, .waiting i)

/-- What a waiter suspended on deferred `i` observes in state `s`: `none`
while pending, `some (true, _)` after resolution, `some (false, e)` after
rejection with `e`. -/
def waiterOutcome (s : Sys) (i : Nat) : Option (Bool × JSVal) :=
  (s.heap i).bind (·.settled)

/-- The lifecycle suffixes of the dispatches issued so far, in order. -/
def dispatchStates (s : Sys) : List (Option ActionState) :=
  s.dispatched.map (·.state)

/-- The parent store's directly observable pieces relevant to nested-store
composition: its `state` field and a count of `notifySubscribers` runs
(tracking whether the parent's subscribers were notified). -/
structure RootStore where
  state : JSVal
  notifications : Nat
  subscriptionsEnabled : Bool
deriving DecidableEq

/-- `Store.setState`: remember the previous state, assign the new one, and
notify subscribers when subscriptions are enabled. -/
def setState (p : RootStore) (s : JSVal) : RootStore :=
  { p with state := s,
           notifications := p.notifications + (if p.subscriptionsEnabled then 1 else 0) }

/-- The getter installed on the child's `state` property by `addInnerStore`:
project the parent's state through the child's read projection when the
parent has (truthy) state, `undefined` (modelled as `none`) otherwise. -/
def innerStateGet (p : RootStore) (selectLocalState : JSVal → JSVal) : Option JSVal :=
  if truthy p.state then some (selectLocalState p.state) else Option.none

/-- The setter installed on the child's `state` property by `addInnerStore`:
assign the write-projected value to the parent's `state` field directly,
bypassing the parent's `setState` (so no subscriber notification runs). -/
def innerStateSet (p : RootStore) (selectGlobalState : JSVal → JSVal) (v : JSVal) : RootStore :=
  { p with state := selectGlobalState v }

/-- A forest of child stores in sibling-list encoding: `node i n sl ch sib`
is a store with identity `i`, `n` state-change subscribers, read projection
`sl` (`selectLocalState`), first child chain `ch` and next sibling `sib`. -/
inductive Forest where
  | nil
  | node (id subs : Nat) (sl : JSVal → JSVal) (children sibling : Forest)

/-- One state-change subscriber call `sub(this.state, prevState)`: the
subscriber's store, its index in that store's list, and the two arguments. -/
structure NEvt where
  sid : Nat
  subIdx : Nat
  cur : JSVal
  prev : JSVal
deriving DecidableEq

/-- Default event for safe list indexing. -/
def evD : NEvt := ⟨0, 0, .null, .null⟩

/-- The calls `subscriptions.forEach(sub => sub(this.state, prevState))`
of one store with identity `i` and `n` subscribers. -/
def ownEvents (i n : Nat) (cur prev : JSVal) : List NEvt :=
  (List.range n).map (fun k => ⟨i, k, cur, prev⟩)

/-- The recursive fan-out of `notifySubscribers` over a child forest, given
the parent's current and previous state: each child computes its current
state through its `state` getter (read projection guarded by parent-state
truthiness), projects the previous state only when truthy
(`if (prevState) state = store.selectLocalState(prevState)`), fires its own
subscribers, then recurses into its own children before its next sibling. -/
def notifyForest : Forest → JSVal → JSVal → List NEvt
  | .nil, _, _ => []
  | .node i n sl ch sib, pcur, pprev =>
    let cur := if truthy pcur then sl pcur else .undefined
    let prev := if truthy pprev then sl pprev else .undefined
    ownEvents i n cur prev ++ (notifyForest ch cur prev ++ notifyForest sib pcur pprev)

/-- `Store.notifySubscribers` on a root store with identity `rid`, `n`
subscribers and child forest `ch`: fire the root's own subscribers with
`(newState, prevState)`, then recursively notify the children. -/
def notifySubscribers (rid n : Nat) (ch : Forest) (cur prev : JSVal) : List NEvt :=
  ownEvents rid n cur prev ++ notifyForest ch cur prev

/-- All store identities in a forest. -/
def idsOf : Forest → List Nat
  | .nil => []
  | .node i _ _ ch sib => i :: (idsOf ch ++ idsOf sib)

/-- The identities of the top-level (sibling chain) stores of a forest. -/
def rootsOf : Forest → List Nat
  | .nil => []
  | .node i _ _ _ sib => i :: rootsOf sib

/-- All parent/child edges inside a forest. -/
def edgesOf : Forest → List (Nat × Nat)
  | .nil => []
  | .node i _ _ ch sib =>
    (rootsOf ch).map (fun c => (i, c)) ++ (edgesOf ch ++ edgesOf sib)

/-- All parent/child edges of the tree rooted at `rid` with child forest
`ch`. -/
def rootEdges (rid : Nat) (ch : Forest) : List (Nat × Nat) :=
  (rootsOf ch).map (fun c => (rid, c)) ++ edgesOf ch

/-- In trace `tr`, every event of store `u` occurs strictly before every
event of store `v`. -/
def precedes (tr : List NEvt) (u v : Nat) : Prop :=
  ∀ i, i < tr.length → ∀ j, j < tr.length →
    (tr.getD i evD).sid = u → (tr.getD j evD).sid = v → i < j

/-- The bare scoped action type with its lifecycle suffix, as recovered by
the type manager. -/
structure ActionType where
  base : String
  suffix : Option ActionState
deriving DecidableEq

/-- Modelled from the spec: `ActionTypeManager.getType()`
(`utils/action-type-manager`, not present under `src/`) recovers the base
scoped identifier of a type string, stripping any lifecycle suffix. -/
def ATgetType (t : ActionType) : String := t.base

/-- A dispatched reducer action as seen by a reducer. -/
structure RAction where
  type : ActionType
  payload : JSVal

/-- The store's own composite reducer built by `Store.createReducer`
(`initialReducer`): `null`/`undefined` state yields `initialState`;
recognized internal/reserved types (the imported `isReduxInternalAction`
classifier, kept abstract as a parameter) return the state unchanged;
otherwise the handler registered under the suffix-stripped type runs, or the
default identity handler. -/
def initialReducer (initialState : JSVal)
    (handlers : List (String × (JSVal → JSVal → ActionType → JSVal)))
    (isInternal : ActionType → Bool)
    (defaultActionHandler : JSVal → JSVal)
    (state : JSVal) (a : RAction) : JSVal :=
  if isNullish state then initialState
  else if isInternal a.type then state
  else
    match handlers.lookup (ATgetType a.type) with
    | some h => h state a.payload a.type
    | Option.none => defaultActionHandler state

/-- A truthy value is not `null`. -/
theorem truthy_ne_null {v : JSVal} (h : truthy v = true) : v ≠ JSVal.null := by
  intro hv
  subst hv
  simp [truthy] at h

/-- Reading back a freshly written cell of the deferred heap. -/
theorem heapSet_same (h : DHeap) (i : Nat) (d : DeferredRec) : heapSet h i d i = some d := by
  simp [heapSet]

/-- Reading an untouched cell of the deferred heap. -/
theorem heapSet_other (h : DHeap) (i n : Nat) (d : DeferredRec) (hne : n ≠ i) :
    heapSet h i d n = h n := by
  simp [heapSet, hne]

/-- `settleChain` never unsettles: an already-settled deferred is left
exactly as it was. -/
theorem settleChain_preserves_settled (fuel : Nat) :
    ∀ (h : DHeap) (i0 : Nat) (o : Bool × JSVal) (n : Nat) (d : DeferredRec),
      h n = some d → d.settled.isSome → settleChain h fuel i0 o n = some d := by
  induction fuel with
  | zero => intro h i0 o n d hn _; simpa [settleChain] using hn
  | succ f ih =>
    intro h i0 o n d hn hs
    by_cases hni : n = i0
    · subst hni
      simp [settleChain, hn, hs]
    · cases hh : h i0 with
      | none => simp [settleChain, hh, hn]
      | some d0 =>
        by_cases hset : d0.settled.isSome
        · simp [settleChain, hh, hset, hn]
        · rw [Bool.not_eq_true] at hset
          have hstep : heapSet h i0 { d0 with settled := some o } n = some d := by
            rw [heapSet_other h i0 n _ hni]; exact hn
          cases hp : d0.prev with
          | none =>
            rw [hp] at hstep
            simp [settleChain, hh, hset, hp, hstep]
          | some p =>
            have := ih (heapSet h i0 { d0 with settled := some o }) p o n d hstep hs
            simpa [settleChain, hh, hset, hp] using this

/-- `settleChain` with positive fuel settles the deferred it starts from. -/
theorem settleChain_settles (fuel : Nat) (h : DHeap) (i : Nat) (o : Bool × JSVal)
    (d : DeferredRec) (hf : 0 < fuel) (hh : h i = some d) :
    ∃ d1, settleChain h fuel i o i = some d1 ∧ d1.settled.isSome := by
  cases fuel with
  | zero => omega
  | succ f =>
    by_cases hset : d.settled.isSome
    · exact ⟨d, by simp [settleChain, hh, hset], hset⟩
    · rw [Bool.not_eq_true] at hset
      cases hp : d.prev with
      | none =>
        refine ⟨{ d with settled := some o }, ?_, by simp⟩
        simp [settleChain, hh, hset, hp, heapSet_same]
      | some p =>
        refine ⟨{ d with settled := some o }, ?_, by simp⟩
        have hmem : heapSet h i { d with settled := some o } i
            = some { d with settled := some o } := heapSet_same h i _
        have hpres := settleChain_preserves_settled f
          (heapSet h i { d with settled := some o }) p o i _ hmem (by simp)
        simpa [settleChain, hh, hset, hp] using hpres

/-- When the dedup check vetoes (`false`), it leaves the stored cache key
untouched (no path returning `false` updates `meta.cachedArguments`). -/
theorem checkCached_false_no_update (cache : CacheOpt) (cached : Option CacheKey)
    (args : List JSVal) (h : (checkCachedArguments cache cached args).1 = false) :
    (checkCachedArguments cache cached args).2 = cached := by
  cases cache with
  | none => simp [checkCachedArguments] at h
  | ctrue =>
    cases cached with
    | none => simp [checkCachedArguments] at h
    | some k =>
      cases k with
      | scalar s =>
        by_cases hc : keysStrictEq (newKeyOf .ctrue args) (.scalar s) = true
        · simp [checkCachedArguments, hc]
        · rw [Bool.not_eq_true] at hc
          simp [checkCachedArguments, hc] at h
      | arr os =>
        by_cases h1 : (os.length == 0 && keyLength (newKeyOf .ctrue args) == some 0) = true
        · simp [checkCachedArguments, h1] at h
        · rw [Bool.not_eq_true] at h1
          by_cases h2 : (keyLength (newKeyOf .ctrue args) != some os.length) = true
          · simp [checkCachedArguments, h1, h2] at h
          · rw [Bool.not_eq_true] at h2
            by_cases h3 : ∀ x < os.length,
                jsEq (keyIndex (newKeyOf CacheOpt.ctrue args) x) (os[x]?.getD JSVal.undefined) = true
            · simp [checkCachedArguments, h1, h2]
              rw [if_pos h3]
            · simp [checkCachedArguments, h1, h2, h3] at h
  | cfn f =>
    cases cached with
    | none => simp [checkCachedArguments] at h
    | some k =>
      cases k with
      | scalar s =>
        by_cases hc : keysStrictEq (newKeyOf (.cfn f) args) (.scalar s) = true
        · simp [checkCachedArguments, hc]
        · rw [Bool.not_eq_true] at hc
          simp [checkCachedArguments, hc] at h
      | arr os =>
        by_cases h1 : (os.length == 0 && keyLength (newKeyOf (.cfn f) args) == some 0) = true
        · simp [checkCachedArguments, h1] at h
        · rw [Bool.not_eq_true] at h1
          by_cases h2 : (keyLength (newKeyOf (.cfn f) args) != some os.length) = true
          · simp [checkCachedArguments, h1, h2] at h
          · rw [Bool.not_eq_true] at h2
            by_cases h3 : ∀ x < os.length,
                jsEq (keyIndex (newKeyOf (CacheOpt.cfn f) args) x) (os[x]?.getD JSVal.undefined) = true
            · simp [checkCachedArguments, h1, h2]
              rw [if_pos h3]
            · simp [checkCachedArguments, h1, h2, h3] at h

/-- C10: the store's own composite reducer (`initialReducer` built by
`createReducer`), applied to a `null` or `undefined` state value, returns
the store's `initialState` regardless of the incoming action's type or
payload — including reserved internal types and types with no matching
handler (the `state == null` check precedes both). -/
theorem C10_initialReducer_nullish (initialState : JSVal)
    (handlers : List (String × (JSVal → JSVal → ActionType → JSVal)))
    (isInternal : ActionType → Bool) (defaultActionHandler : JSVal → JSVal)
    (a : RAction) :
    initialReducer initialState handlers isInternal defaultActionHandler JSVal.null a
      = initialState ∧
    initialReducer initialState handlers isInternal defaultActionHandler JSVal.undefined a
      = initialState := by
  constructor <;> rfl

/-- C8: evaluation of the START-payload computation at the claim's failing
inputs.  The guard `actionCreatorArgs.length <= 1 ? actionCreatorArgs[1] :
actionCreatorArgs` dispatches the full argument list for a two-argument
call (where the claim requires the single extra argument `2`) and
`undefined` for calls with at most one argument (where the claim requires
the full argument list); the START dispatch itself does happen in the
synchronous entry segment, before awaiting. -/
theorem C8_startPayload_eval :
    startPayload [JSVal.num 1, JSVal.num 2] = DispatchPayload.vals [JSVal.num 1, JSVal.num 2] ∧
    startPayload [JSVal.num 1] = DispatchPayload.val JSVal.undefined ∧
    startPayload [] = DispatchPayload.val JSVal.undefined ∧
    (invokeAsyncStart sys0 ⟨false, CacheOpt.none⟩ [JSVal.num 1, JSVal.num 2]).1.dispatched
      = [⟨some ActionState.START, DispatchPayload.vals [JSVal.num 1, JSVal.num 2]⟩] ∧
    DispatchPayload.vals [JSVal.num 1, JSVal.num 2] ≠ DispatchPayload.val (JSVal.num 2) := by
  refine ⟨rfl, rfl, rfl, by decide, by decide⟩

/-- C7 counterexample: with both the stored key and the newly computed key
the empty array, `checkCachedArguments` returns `true` (the invocation
runs), not `false` as the claim states. -/
theorem C7_empty_arrays_cex :
    (checkCachedArguments CacheOpt.ctrue (some (CacheKey.arr [])) []).1 ≠ false := by
  decide

/-- C7 amended: when the stored cache key and the newly computed cache key
are both empty arrays, the dedup check returns `true` without updating the
stored key — the invocation runs (it is not suppressed). -/
theorem C7_empty_arrays_check_runs (cache : CacheOpt) (cached : Option CacheKey)
    (args : List JSVal)
    (hnew : newKeyOf cache args = CacheKey.arr [])
    (hold : cached = some (CacheKey.arr [])) :
    checkCachedArguments cache cached args = (true, some (CacheKey.arr [])) := by
  subst hold
  cases cache with
  | none => simp [checkCachedArguments]
  | ctrue =>
    have hargs : args = [] := by simpa [newKeyOf] using hnew
    subst hargs
    decide
  | cfn f =>
    simp [checkCachedArguments, newKeyOf] at hnew ⊢
    simp [hnew, keyLength]

theorem C7_empty_arrays_check_runs_witness :
    newKeyOf CacheOpt.ctrue [] = CacheKey.arr [] ∧
    (some (CacheKey.arr []) : Option CacheKey) = some (CacheKey.arr []) ∧
    checkCachedArguments CacheOpt.ctrue (some (CacheKey.arr [])) []
      = (true, some (CacheKey.arr [])) :=
  ⟨rfl, rfl, C7_empty_arrays_check_runs CacheOpt.ctrue _ [] rfl rfl⟩

/-- C3 counterexample: with identity read and write projections, after
assigning the (falsy) value `false` through the child's state setter, the
child's state getter yields `undefined` (`none`), not the written value —
the read does not reproduce `v` for the identity projections. -/
theorem C3_identity_roundtrip_cex :
    innerStateGet (innerStateSet ⟨JSVal.num 5, 0, true⟩ (fun x => x) (JSVal.bool false))
        (fun x => x)
      ≠ some (JSVal.bool false) := by
  decide

/-- C3 amended: assigning `v` through the child's state setter sets the
parent's state field to `W v` directly (replacement, not merge) without
notifying the parent's subscribers; the child's getter then yields
`R` of the parent state when that state is truthy and `undefined`
otherwise, so the identity-projection round trip reproduces `v` exactly
when `v` is truthy. -/
theorem C3_inner_write_read (p : RootStore) (W R : JSVal → JSVal) (v : JSVal) :
    (innerStateSet p W v).state = W v ∧
    (innerStateSet p W v).notifications = p.notifications ∧
    innerStateGet (innerStateSet p W v) R
      = (if truthy (W v) then some (R (W v)) else Option.none) ∧
    innerStateGet (innerStateSet p (fun x => x) v) (fun x => x)
      = (if truthy v then some v else Option.none) := by
  refine ⟨rfl, rfl, ?_, ?_⟩ <;> simp [innerStateGet, innerStateSet]

/-- C6: when the dedup check vetoes an invocation, the call returns the
already-resolved empty result (`vetoed`/`suppressed`) and the system state
is completely unchanged: no payload run, no dispatch, no lifecycle-state or
deferred change, no cache update — for both async- and sync-declared
actions. -/
theorem C6_dedup_veto_is_pure (s : Sys) (opts : ActionOpts) (sg : JSVal → JSVal)
    (args : List JSVal) (p : JSVal)
    (h : (checkCachedArguments opts.cache s.cached args).1 = false) :
    invokeAsyncStart s opts args = (s, .vetoed) ∧
    invokeSync s opts sg args p = (s, .suppressed) := by
  have h2 := checkCached_false_no_update opts.cache s.cached args h
  constructor
  · simp [invokeAsyncStart, h, h2]
  · simp [invokeSync, h, h2]

theorem C6_dedup_veto_is_pure_witness :
    (checkCachedArguments CacheOpt.ctrue
        (some (CacheKey.arr [JSVal.obj 1])) [JSVal.obj 1]).1 = false ∧
    invokeAsyncStart { sys0 with cached := some (CacheKey.arr [JSVal.obj 1]) }
        ⟨false, CacheOpt.ctrue⟩ [JSVal.obj 1]
      = ({ sys0 with cached := some (CacheKey.arr [JSVal.obj 1]) }, .vetoed) ∧
    invokeSync { sys0 with cached := some (CacheKey.arr [JSVal.obj 1]) }
        ⟨false, CacheOpt.ctrue⟩ (fun x => x) [JSVal.obj 1] (JSVal.num 0)
      = ({ sys0 with cached := some (CacheKey.arr [JSVal.obj 1]) }, .suppressed) :=
  ⟨by decide,
   (C6_dedup_veto_is_pure { sys0 with cached := some (CacheKey.arr [JSVal.obj 1]) }
      ⟨false, CacheOpt.ctrue⟩ (fun x => x) [JSVal.obj 1] (JSVal.num 0) (by decide)).1,
   (C6_dedup_veto_is_pure { sys0 with cached := some (CacheKey.arr [JSVal.obj 1]) }
      ⟨false, CacheOpt.ctrue⟩ (fun x => x) [JSVal.obj 1] (JSVal.num 0) (by decide)).2⟩

/-- C1 counterexample: an async invocation whose payload promise resolves
(with `null`) dispatches only `[START]` — not `[START, SUCCESS]` as the
claim states for every resolution. -/
theorem C1_null_success_cex :
    dispatchStates
      (settleAsyncSuccess ((invokeAsyncStart sys0 ⟨false, CacheOpt.none⟩ [JSVal.num 1]).1)
        ⟨false, CacheOpt.none⟩ (fun x => x) 1 JSVal.null).1
      = [some ActionState.START] ∧
    [some ActionState.START] ≠ [some ActionState.START, some ActionState.SUCCESS] := by
  refine ⟨by decide, by decide⟩

/-- C1 amended: for one isolated async invocation, the dispatched lifecycle
sequence is exactly `[START, SUCCESS]` when the payload resolves to a
truthy (non-null after the `|| null` coercion) value, exactly `[START]`
when it resolves falsy, and exactly `[START, ERROR]` when it rejects; START
always precedes SUCCESS/ERROR. -/
theorem C1_lifecycle_sequences (args : List JSVal) (sg : JSVal → JSVal) (v e : JSVal) :
    dispatchStates
      (settleAsyncSuccess ((invokeAsyncStart sys0 ⟨false, CacheOpt.none⟩ args).1)
        ⟨false, CacheOpt.none⟩ sg 1 v).1
      = (if truthy v then [some ActionState.START, some ActionState.SUCCESS]
         else [some ActionState.START]) ∧
    dispatchStates (settleAsyncError ((invokeAsyncStart sys0 ⟨false, CacheOpt.none⟩ args).1) e).1
      = [some ActionState.START, some ActionState.ERROR] := by
  constructor
  · by_cases htv : truthy v = true
    · have hv := truthy_ne_null htv
      simp [invokeAsyncStart, settleAsyncSuccess, successData, successDispatchPhase,
            resolveClearPhase, setActionStateAndDispatch, checkCachedArguments,
            dispatchStates, sys0, heapSet, htv, hv]
    · rw [Bool.not_eq_true] at htv
      simp [invokeAsyncStart, settleAsyncSuccess, successData, successDispatchPhase,
            resolveClearPhase, setActionStateAndDispatch, checkCachedArguments,
            dispatchStates, sys0, heapSet, htv]
  · simp [invokeAsyncStart, settleAsyncError, rejectClearPhase, setActionStateAndDispatch,
          checkCachedArguments, dispatchStates, sys0, heapSet]

/-- The conditional SUCCESS dispatch leaves the deferred bookkeeping
(`action.deferred`, heap, next index) untouched. -/
theorem successDispatchPhase_frame (s : Sys) (sg : JSVal → JSVal) (data : JSVal) :
    (successDispatchPhase s sg data).actionDeferred = s.actionDeferred ∧
    (successDispatchPhase s sg data).heap = s.heap ∧
    (successDispatchPhase s sg data).nextId = s.nextId := by
  by_cases hD : data = JSVal.null <;>
    simp [successDispatchPhase, setActionStateAndDispatch, hD]

/-- The success-path tail always clears `action.deferred` and, when a
deferred was present and allocated, leaves it settled. -/
theorem resolveClearPhase_spec (s : Sys) (i : Nat) (d : DeferredRec)
    (hd : s.actionDeferred = some i) (hh : s.heap i = some d) (hi : i < s.nextId) :
    (resolveClearPhase s).actionDeferred = Option.none ∧
    ∃ d1, (resolveClearPhase s).heap i = some d1 ∧ d1.settled.isSome := by
  unfold resolveClearPhase
  simp only [hd]
  refine ⟨by simp, ?_⟩
  exact settleChain_settles s.nextId s.heap i (true, .undefined) d (by omega) hh

/-- The error-path tail always clears `action.deferred`; it settles the
current deferred exactly when it was subscribed, and leaves an unsubscribed
deferred byte-for-byte unchanged (no reject is issued on it). -/
theorem rejectClearPhase_spec (s : Sys) (e : JSVal) (i : Nat) (d : DeferredRec)
    (hd : s.actionDeferred = some i) (hh : s.heap i = some d) (hi : i < s.nextId) :
    (rejectClearPhase s e).actionDeferred = Option.none ∧
    (d.subscribedTo = false → (rejectClearPhase s e).heap i = some d) ∧
    (d.subscribedTo = true →
      ∃ d1, (rejectClearPhase s e).heap i = some d1 ∧ d1.settled.isSome) := by
  unfold rejectClearPhase
  simp only [hd, hh]
  refine ⟨?_, ?_, ?_⟩
  · by_cases hsub : d.subscribedTo = true <;> simp [hsub]
  · intro hsub
    simp [hsub]
    exact hh
  · intro hsub
    simp only [hsub, if_true]
    exact settleChain_settles s.nextId s.heap i (false, e) d (by omega) hh

/-- C2: for an action declared `latest: true`, with invocation A then B
overlapping and B's payload settling before A's: B's SUCCESS dispatch and
return value are unaffected, A's SUCCESS dispatch is suppressed and A
returns `null`, and A's deferred (index 0) is still resolved (through
the chain when B's deferred settles). -/
theorem C2_latest_suppresses_stale (argsA argsB : List JSVal) (sg : JSVal → JSVal)
    (vA vB : JSVal) (hA : truthy vA = true) (hB : truthy vB = true) :
    let o : ActionOpts := ⟨true, CacheOpt.none⟩
    let sA := (invokeAsyncStart sys0 o argsA).1
    let sB := (invokeAsyncStart sA o argsB).1
    let rB := settleAsyncSuccess sB o sg 2 vB
    let rA := settleAsyncSuccess rB.1 o sg 1 vA
    rB.2 = vB ∧
    rA.2 = JSVal.null ∧
    rA.1.dispatched
      = [⟨some ActionState.START, startPayload argsA⟩,
         ⟨some ActionState.START, startPayload argsB⟩,
         ⟨some ActionState.SUCCESS, DispatchPayload.val (sg vB)⟩] ∧
    waiterOutcome rB.1 0 = some (true, JSVal.undefined) ∧
    waiterOutcome rA.1 0 = some (true, JSVal.undefined) := by
  have hvB := truthy_ne_null hB
  simp [invokeAsyncStart, settleAsyncSuccess, successData, successDispatchPhase,
        resolveClearPhase, setActionStateAndDispatch, checkCachedArguments, waiterOutcome,
        settleChain, heapSet, sys0, hB, hvB]

theorem C2_latest_suppresses_stale_witness :
    truthy (JSVal.num 1) = true ∧ truthy (JSVal.num 2) = true ∧
    (let o : ActionOpts := ⟨true, CacheOpt.none⟩
     let sA := (invokeAsyncStart sys0 o []).1
     let sB := (invokeAsyncStart sA o []).1
     let rB := settleAsyncSuccess sB o (fun x => x) 2 (JSVal.num 2)
     let rA := settleAsyncSuccess rB.1 o (fun x => x) 1 (JSVal.num 1)
     rB.2 = JSVal.num 2 ∧
     rA.2 = JSVal.null ∧
     rA.1.dispatched
       = [⟨some ActionState.START, startPayload []⟩,
          ⟨some ActionState.START, startPayload []⟩,
          ⟨some ActionState.SUCCESS, DispatchPayload.val (JSVal.num 2)⟩] ∧
     waiterOutcome rB.1 0 = some (true, JSVal.undefined) ∧
     waiterOutcome rA.1 0 = some (true, JSVal.undefined)) :=
  ⟨by decide, by decide,
   C2_latest_suppresses_stale [] [] (fun x => x) (JSVal.num 1) (JSVal.num 2)
     (by decide) (by decide)⟩

/-- C4: waiting on an action with no in-flight invocation returns
immediately; waiting on an invocation that then fails observes a rejection
with the very error thrown to the direct caller; an invocation that was
never waited on rejects nowhere — its deferred is cleared without ever
being rejected. -/
theorem C4_wait_semantics (s : Sys) (hidle : s.actionDeferred = Option.none)
    (args : List JSVal) (e : JSVal) :
    waitForAction s = (s, .immediate) ∧
    (let s1 := (invokeAsyncStart sys0 ⟨false, CacheOpt.none⟩ args).1
     (waitForAction s1).2 = WaitOutcome.waiting 0 ∧
     (settleAsyncError (waitForAction s1).1 e).2 = e ∧
     waiterOutcome (settleAsyncError (waitForAction s1).1 e).1 0 = some (false, e)) ∧
    (let s1 := (invokeAsyncStart sys0 ⟨false, CacheOpt.none⟩ args).1
     (settleAsyncError s1 e).2 = e ∧
     waiterOutcome (settleAsyncError s1 e).1 0 = Option.none) := by
  refine ⟨?_, ?_, ?_⟩
  · simp [waitForAction, hidle]
  · simp [invokeAsyncStart, waitForAction, settleAsyncError, rejectClearPhase,
          setActionStateAndDispatch, checkCachedArguments, waiterOutcome, settleChain,
          heapSet, sys0]
  · simp [invokeAsyncStart, settleAsyncError, rejectClearPhase,
          setActionStateAndDispatch, checkCachedArguments, waiterOutcome, settleChain,
          heapSet, sys0]

theorem C4_wait_semantics_witness :
    sys0.actionDeferred = Option.none ∧
    (waitForAction sys0 = (sys0, .immediate) ∧
     (let s1 := (invokeAsyncStart sys0 ⟨false, CacheOpt.none⟩ []).1
      (waitForAction s1).2 = WaitOutcome.waiting 0 ∧
      (settleAsyncError (waitForAction s1).1 (JSVal.num 3)).2 = JSVal.num 3 ∧
      waiterOutcome (settleAsyncError (waitForAction s1).1 (JSVal.num 3)).1 0
        = some (false, JSVal.num 3)) ∧
     (let s1 := (invokeAsyncStart sys0 ⟨false, CacheOpt.none⟩ []).1
      (settleAsyncError s1 (JSVal.num 3)).2 = JSVal.num 3 ∧
      waiterOutcome (settleAsyncError s1 (JSVal.num 3)).1 0 = Option.none)) :=
  ⟨rfl, C4_wait_semantics sys0 rfl [] (JSVal.num 3)⟩

/-- C5 counterexample: invocation A (call number 1) races the newer
invocation B, which created deferred 1; A's payload settles first, and A's
continuation both settles B's deferred (index 1, which A does not own) and
clears the shared `action.deferred` reference — contradicting the claim
that a racing call does not clear or settle a deferred created by the newer
invocation. -/
theorem C5_racing_settles_newer_cex :
    ((invokeAsyncStart ((invokeAsyncStart sys0 ⟨false, CacheOpt.none⟩ []).1)
        ⟨false, CacheOpt.none⟩ []).1).actionDeferred = some 1 ∧
    (settleAsyncSuccess ((invokeAsyncStart ((invokeAsyncStart sys0 ⟨false, CacheOpt.none⟩ []).1)
        ⟨false, CacheOpt.none⟩ []).1) ⟨false, CacheOpt.none⟩ (fun x => x) 1
        (JSVal.num 7)).1.actionDeferred = Option.none ∧
    ((settleAsyncSuccess ((invokeAsyncStart ((invokeAsyncStart sys0 ⟨false, CacheOpt.none⟩ []).1)
        ⟨false, CacheOpt.none⟩ []).1) ⟨false, CacheOpt.none⟩ (fun x => x) 1
        (JSVal.num 7)).1.heap 1).map DeferredRec.settled
      = some (some (true, JSVal.undefined)) := by
  refine ⟨by decide, by decide, by decide⟩

/-- C5 amended: whichever settling continuation runs, the action's current
deferred is cleared — regardless of which invocation created it.  On the
success path the current deferred is resolved before clearing; on the error
path it is rejected before clearing exactly when it was subscribed, and an
unsubscribed deferred is cleared without being settled. -/
theorem C5_clear_follows_settle_attempt (s : Sys) (opts : ActionOpts)
    (sg : JSVal → JSVal) (cn : Nat) (v e : JSVal) (i : Nat) (d : DeferredRec)
    (hd : s.actionDeferred = some i) (hh : s.heap i = some d) (hi : i < s.nextId) :
    ((settleAsyncSuccess s opts sg cn v).1.actionDeferred = Option.none ∧
     ∃ d1, (settleAsyncSuccess s opts sg cn v).1.heap i = some d1 ∧ d1.settled.isSome) ∧
    ((settleAsyncError s e).1.actionDeferred = Option.none ∧
     (d.subscribedTo = false → (settleAsyncError s e).1.heap i = some d) ∧
     (d.subscribedTo = true →
       ∃ d1, (settleAsyncError s e).1.heap i = some d1 ∧ d1.settled.isSome)) := by
  constructor
  · have hf := successDispatchPhase_frame s sg (successData opts s.callCount cn v)
    have hspec := resolveClearPhase_spec
      (successDispatchPhase s sg (successData opts s.callCount cn v)) i d
      (by rw [hf.1]; exact hd) (by rw [hf.2.1]; exact hh) (by rw [hf.2.2]; omega)
    simpa [settleAsyncSuccess] using hspec
  · have hspec := rejectClearPhase_spec
      (setActionStateAndDispatch { s with errors := s.errors ++ [e] } .ERROR (.val e)) e i d
      (by simpa [setActionStateAndDispatch] using hd)
      (by simpa [setActionStateAndDispatch] using hh)
      (by simpa [setActionStateAndDispatch] using hi)
    simpa [settleAsyncError] using hspec

theorem C5_clear_follows_settle_attempt_witness :
    ((invokeAsyncStart sys0 ⟨false, CacheOpt.none⟩ []).1.actionDeferred = some 0) ∧
    ((invokeAsyncStart sys0 ⟨false, CacheOpt.none⟩ []).1.heap 0
      = some ⟨Option.none, Option.none, false⟩) ∧
    (0 < (invokeAsyncStart sys0 ⟨false, CacheOpt.none⟩ []).1.nextId) ∧
    (((settleAsyncSuccess ((invokeAsyncStart sys0 ⟨false, CacheOpt.none⟩ []).1)
         ⟨false, CacheOpt.none⟩ (fun x => x) 1 (JSVal.num 7)).1.actionDeferred = Option.none ∧
      ∃ d1, (settleAsyncSuccess ((invokeAsyncStart sys0 ⟨false, CacheOpt.none⟩ []).1)
         ⟨false, CacheOpt.none⟩ (fun x => x) 1 (JSVal.num 7)).1.heap 0 = some d1 ∧
         d1.settled.isSome) ∧
     ((settleAsyncError ((invokeAsyncStart sys0 ⟨false, CacheOpt.none⟩ []).1)
         (JSVal.num 9)).1.actionDeferred = Option.none ∧
      ((⟨Option.none, Option.none, false⟩ : DeferredRec).subscribedTo = false →
        (settleAsyncError ((invokeAsyncStart sys0 ⟨false, CacheOpt.none⟩ []).1)
          (JSVal.num 9)).1.heap 0 = some ⟨Option.none, Option.none, false⟩) ∧
      ((⟨Option.none, Option.none, false⟩ : DeferredRec).subscribedTo = true →
        ∃ d1, (settleAsyncError ((invokeAsyncStart sys0 ⟨false, CacheOpt.none⟩ []).1)
          (JSVal.num 9)).1.heap 0 = some d1 ∧ d1.settled.isSome))) :=
  ⟨by decide, by decide, by decide,
   C5_clear_follows_settle_attempt ((invokeAsyncStart sys0 ⟨false, CacheOpt.none⟩ []).1)
     ⟨false, CacheOpt.none⟩ (fun x => x) 1 (JSVal.num 7) (JSVal.num 9) 0
     ⟨Option.none, Option.none, false⟩ (by decide) (by decide) (by decide)⟩

/-- The event at a valid index of a trace is an element of the trace. -/
theorem trace_getD_mem (tr : List NEvt) (i : Nat) (hi : i < tr.length) :
    tr.getD i evD ∈ tr := by
  rw [List.getD_eq_getElem tr evD hi]
  exact List.getElem_mem hi

/-- If no event of `A` belongs to `v` and no event of `B` belongs to `u`,
then in `A ++ B` all `u`-events precede all `v`-events. -/
theorem precedes_of_append (A B : List NEvt) (u v : Nat)
    (hA : ∀ ev ∈ A, ev.sid ≠ v) (hB : ∀ ev ∈ B, ev.sid ≠ u) :
    precedes (A ++ B) u v := by
  intro i hi j hj hiu hjv
  have hiA : i < A.length := by
    by_contra hge
    push_neg at hge
    rw [List.getD_append_right A B evD i hge] at hiu
    have hlen : i - A.length < B.length := by
      rw [List.length_append] at hi; omega
    exact hB _ (trace_getD_mem B (i - A.length) hlen) hiu
  have hjB : A.length ≤ j := by
    by_contra hlt
    push_neg at hlt
    rw [List.getD_append A B evD j hlt] at hjv
    exact hA _ (trace_getD_mem A j hlt) hjv
  omega

/-- Appending events of unrelated stores on the right preserves precedence. -/
theorem precedes_append_right (A B : List NEvt) (u v : Nat) (h : precedes A u v)
    (hB : ∀ ev ∈ B, ev.sid ≠ u ∧ ev.sid ≠ v) :
    precedes (A ++ B) u v := by
  intro i hi j hj hiu hjv
  have hiA : i < A.length := by
    by_contra hge
    push_neg at hge
    rw [List.getD_append_right A B evD i hge] at hiu
    have hlen : i - A.length < B.length := by
      rw [List.length_append] at hi; omega
    exact (hB _ (trace_getD_mem B _ hlen)).1 hiu
  have hjA : j < A.length := by
    by_contra hge
    push_neg at hge
    rw [List.getD_append_right A B evD j hge] at hjv
    have hlen : j - A.length < B.length := by
      rw [List.length_append] at hj; omega
    exact (hB _ (trace_getD_mem B _ hlen)).2 hjv
  rw [List.getD_append A B evD i hiA] at hiu
  rw [List.getD_append A B evD j hjA] at hjv
  exact h i hiA j hjA hiu hjv

/-- Prepending events of unrelated stores on the left preserves precedence. -/
theorem precedes_append_left (A B : List NEvt) (u v : Nat) (h : precedes B u v)
    (hA : ∀ ev ∈ A, ev.sid ≠ u ∧ ev.sid ≠ v) :
    precedes (A ++ B) u v := by
  intro i hi j hj hiu hjv
  have hiA : A.length ≤ i := by
    by_contra hlt
    push_neg at hlt
    rw [List.getD_append A B evD i hlt] at hiu
    exact (hA _ (trace_getD_mem A i hlt)).1 hiu
  have hjA : A.length ≤ j := by
    by_contra hlt
    push_neg at hlt
    rw [List.getD_append A B evD j hlt] at hjv
    exact (hA _ (trace_getD_mem A j hlt)).2 hjv
  rw [List.getD_append_right A B evD i hiA] at hiu
  rw [List.getD_append_right A B evD j hjA] at hjv
  have hiB : i - A.length < B.length := by
    rw [List.length_append] at hi; omega
  have hjB : j - A.length < B.length := by
    rw [List.length_append] at hj; omega
  have := h _ hiB _ hjB hiu hjv
  omega

/-- Every event fired by a store's own subscriber loop carries that store's
identity. -/
theorem ownEvents_sid {i n : Nat} {c p : JSVal} {ev : NEvt}
    (h : ev ∈ ownEvents i n c p) : ev.sid = i := by
  simp only [ownEvents, List.mem_map, List.mem_range] at h
  obtain ⟨k, _, hk⟩ := h
  rw [← hk]

/-- Every event of a forest's notification trace belongs to a store of that
forest. -/
theorem notifyForest_sid_mem (F : Forest) :
    ∀ (pc pp : JSVal) (ev : NEvt), ev ∈ notifyForest F pc pp → ev.sid ∈ idsOf F := by
  induction F with
  | nil => intro pc pp ev h; simp [notifyForest] at h
  | node i n sl ch sib ihc ihs =>
    intro pc pp ev h
    simp only [notifyForest, List.mem_append] at h
    simp only [idsOf, List.mem_cons, List.mem_append]
    rcases h with h | h | h
    · exact Or.inl (ownEvents_sid h)
    · exact Or.inr (Or.inl (ihc _ _ _ h))
    · exact Or.inr (Or.inr (ihs _ _ _ h))

/-- Top-level stores of a forest are stores of the forest. -/
theorem rootsOf_subset_ids (F : Forest) : ∀ x ∈ rootsOf F, x ∈ idsOf F := by
  induction F with
  | nil => simp [rootsOf]
  | node i n sl ch sib ihc ihs =>
    intro x hx
    simp only [rootsOf, List.mem_cons] at hx
    simp only [idsOf, List.mem_cons, List.mem_append]
    rcases hx with h | h
    · exact Or.inl h
    · exact Or.inr (Or.inr (ihs x h))

/-- Both endpoints of a parent/child edge are stores of the forest. -/
theorem edgesOf_endpoints (F : Forest) : ∀ u v : Nat, (u, v) ∈ edgesOf F →
    u ∈ idsOf F ∧ v ∈ idsOf F := by
  induction F with
  | nil => intro u v h; simp [edgesOf] at h
  | node i n sl ch sib ihc ihs =>
    intro u v h
    simp only [edgesOf, List.mem_append, List.mem_map] at h
    simp only [idsOf, List.mem_cons, List.mem_append]
    rcases h with ⟨c, hc, hpair⟩ | h | h
    · injection hpair with h1 h2
      subst h1
      subst h2
      exact ⟨Or.inl rfl, Or.inr (Or.inl (rootsOf_subset_ids ch _ hc))⟩
    · have hends := ihc u v h
      exact ⟨Or.inr (Or.inl hends.1), Or.inr (Or.inl hends.2)⟩
    · have hends := ihs u v h
      exact ⟨Or.inr (Or.inr hends.1), Or.inr (Or.inr hends.2)⟩

/-- Parent-before-children ordering inside a child forest: for distinct
store identities, the notification trace of a forest places every event of
a parent store strictly before every event of any of its children. -/
theorem notifyForest_parent_before_child (F : Forest) :
    ∀ (pc pp : JSVal) (u v : Nat), (idsOf F).Nodup → (u, v) ∈ edgesOf F →
      precedes (notifyForest F pc pp) u v := by
  induction F with
  | nil => intro pc pp u v _ h; simp [edgesOf] at h
  | node i n sl ch sib ihc ihs =>
    intro pc pp u v hnd he
    simp only [idsOf, List.nodup_cons] at hnd
    have hni : i ∉ idsOf ch ++ idsOf sib := hnd.1
    have hndch : (idsOf ch).Nodup := (List.nodup_append.mp hnd.2).1
    have hndsib : (idsOf sib).Nodup := (List.nodup_append.mp hnd.2).2.1
    have hdisj : (idsOf ch).Disjoint (idsOf sib) := (List.nodup_append.mp hnd.2).2.2
    simp only [notifyForest]
    simp only [edgesOf, List.mem_append, List.mem_map] at he
    rcases he with ⟨c, hc, hpair⟩ | he | he
    · injection hpair with h1 h2
      subst h1
      subst h2
      apply precedes_of_append
      · intro ev hev
        rw [ownEvents_sid hev]
        intro hic
        exact hni (hic ▸ List.mem_append.mpr (Or.inl (rootsOf_subset_ids ch _ hc)))
      · intro ev hev
        rcases List.mem_append.mp hev with h | h
        · have hm := notifyForest_sid_mem ch _ _ _ h
          intro hevu
          exact hni (hevu ▸ List.mem_append.mpr (Or.inl hm))
        · have hm := notifyForest_sid_mem sib _ _ _ h
          intro hevu
          exact hni (hevu ▸ List.mem_append.mpr (Or.inr hm))
    · have hends := edgesOf_endpoints ch u v he
      apply precedes_append_left
      · apply precedes_append_right
        · exact ihc _ _ _ _ hndch he
        · intro ev hev
          have hm := notifyForest_sid_mem sib _ _ _ hev
          constructor
          · intro h'
            exact hdisj (h' ▸ hends.1) hm
          · intro h'
            exact hdisj (h' ▸ hends.2) hm
      · intro ev hev
        have hsid := ownEvents_sid hev
        rw [hsid]
        constructor
        · intro h'
          exact hni (h' ▸ List.mem_append.mpr (Or.inl hends.1))
        · intro h'
          exact hni (h' ▸ List.mem_append.mpr (Or.inl hends.2))
    · have hends := edgesOf_endpoints sib u v he
      apply precedes_append_left
      · apply precedes_append_left
        · exact ihs _ _ _ _ hndsib he
        · intro ev hev
          have hm := notifyForest_sid_mem ch _ _ _ hev
          constructor
          · intro h'
            exact hdisj hm (h' ▸ hends.1)
          · intro h'
            exact hdisj hm (h' ▸ hends.2)
      · intro ev hev
        have hsid := ownEvents_sid hev
        rw [hsid]
        constructor
        · intro h'
          exact hni (h' ▸ List.mem_append.mpr (Or.inr hends.1))
        · intro h'
          exact hni (h' ▸ List.mem_append.mpr (Or.inr hends.2))

/-- C9: on a root store's state change, `notifySubscribers` fires all of the
root's own subscribers (each with the new and previous state) before any
event of any child store; the ordering is depth-first,
parent-before-children for every parent/child edge of the store tree (for
distinct store identities); every child store's subscribers receive the
previous state projected through the child's read projection, and that
projected previous state is `undefined` when there was no (truthy) previous
root state. -/
theorem C9_notify_depth_first (rid n : Nat) (ch : Forest) (cur prev : JSVal)
    (u v : Nat) (hnd : (rid :: idsOf ch).Nodup) (he : (u, v) ∈ rootEdges rid ch) :
    precedes (notifySubscribers rid n ch cur prev) u v ∧
    notifySubscribers rid n ch cur prev
      = ownEvents rid n cur prev ++ notifyForest ch cur prev ∧
    (∀ ev ∈ ownEvents rid n cur prev, ev.sid = rid ∧ ev.cur = cur ∧ ev.prev = prev) ∧
    (∀ (i2 n2 : Nat) (sl : JSVal → JSVal) (ch2 sib2 : Forest) (pc pv : JSVal),
      notifyForest (Forest.node i2 n2 sl ch2 sib2) pc pv
        = ownEvents i2 n2 (if truthy pc then sl pc else JSVal.undefined)
            (if truthy pv then sl pv else JSVal.undefined)
          ++ (notifyForest ch2 (if truthy pc then sl pc else JSVal.undefined)
                (if truthy pv then sl pv else JSVal.undefined)
              ++ notifyForest sib2 pc pv)) ∧
    (∀ (i2 n2 : Nat) (sl : JSVal → JSVal) (ch2 sib2 : Forest) (pc : JSVal),
      notifyForest (Forest.node i2 n2 sl ch2 sib2) pc JSVal.undefined
        = ownEvents i2 n2 (if truthy pc then sl pc else JSVal.undefined) JSVal.undefined
          ++ (notifyForest ch2 (if truthy pc then sl pc else JSVal.undefined) JSVal.undefined
              ++ notifyForest sib2 pc JSVal.undefined)) := by
  simp only [List.nodup_cons] at hnd
  have hni : rid ∉ idsOf ch := hnd.1
  have hndch : (idsOf ch).Nodup := hnd.2
  refine ⟨?_, rfl, ?_, ?_, ?_⟩
  · simp only [notifySubscribers]
    simp only [rootEdges, List.mem_append, List.mem_map] at he
    rcases he with ⟨c, hc, hpair⟩ | he
    · injection hpair with h1 h2
      subst h1
      subst h2
      apply precedes_of_append
      · intro ev hev
        rw [ownEvents_sid hev]
        intro hic
        exact hni (hic ▸ rootsOf_subset_ids ch _ hc)
      · intro ev hev
        have hm := notifyForest_sid_mem ch _ _ _ hev
        intro hevu
        exact hni (hevu ▸ hm)
    · have hends := edgesOf_endpoints ch u v he
      apply precedes_append_left
      · exact notifyForest_parent_before_child ch _ _ _ _ hndch he
      · intro ev hev
        have hsid := ownEvents_sid hev
        rw [hsid]
        constructor
        · intro h'
          exact hni (h' ▸ hends.1)
        · intro h'
          exact hni (h' ▸ hends.2)
  · intro ev hev
    simp only [ownEvents, List.mem_map, List.mem_range] at hev
    obtain ⟨k, _, hk⟩ := hev
    rw [← hk]
    exact ⟨rfl, rfl, rfl⟩
  · intro i2 n2 sl ch2 sib2 pc pv
    simp [notifyForest]
  · intro i2 n2 sl ch2 sib2 pc
    simp [notifyForest, truthy]

theorem C9_notify_depth_first_witness :
    ((0 : Nat) :: idsOf (Forest.node 1 1 (fun x => x)
        (Forest.node 2 1 (fun x => x) Forest.nil Forest.nil) Forest.nil)).Nodup ∧
    ((1, 2) ∈ rootEdges 0 (Forest.node 1 1 (fun x => x)
        (Forest.node 2 1 (fun x => x) Forest.nil Forest.nil) Forest.nil)) ∧
    (precedes (notifySubscribers 0 1 (Forest.node 1 1 (fun x => x)
        (Forest.node 2 1 (fun x => x) Forest.nil Forest.nil) Forest.nil)
        (JSVal.num 1) JSVal.undefined) 1 2 ∧
     notifySubscribers 0 1 (Forest.node 1 1 (fun x => x)
        (Forest.node 2 1 (fun x => x) Forest.nil Forest.nil) Forest.nil)
        (JSVal.num 1) JSVal.undefined
       = ownEvents 0 1 (JSVal.num 1) JSVal.undefined
         ++ notifyForest (Forest.node 1 1 (fun x => x)
              (Forest.node 2 1 (fun x => x) Forest.nil Forest.nil) Forest.nil)
              (JSVal.num 1) JSVal.undefined ∧
     (∀ ev ∈ ownEvents 0 1 (JSVal.num 1) JSVal.undefined,
        ev.sid = 0 ∧ ev.cur = JSVal.num 1 ∧ ev.prev = JSVal.undefined) ∧
     (∀ (i2 n2 : Nat) (sl : JSVal → JSVal) (ch2 sib2 : Forest) (pc pv : JSVal),
        notifyForest (Forest.node i2 n2 sl ch2 sib2) pc pv
          = ownEvents i2 n2 (if truthy pc then sl pc else JSVal.undefined)
              (if truthy pv then sl pv else JSVal.undefined)
            ++ (notifyForest ch2 (if truthy pc then sl pc else JSVal.undefined)
                  (if truthy pv then sl pv else JSVal.undefined)
                ++ notifyForest sib2 pc pv)) ∧
     (∀ (i2 n2 : Nat) (sl : JSVal → JSVal) (ch2 sib2 : Forest) (pc : JSVal),
        notifyForest (Forest.node i2 n2 sl ch2 sib2) pc JSVal.undefined
          = ownEvents i2 n2 (if truthy pc then sl pc else JSVal.undefined) JSVal.undefined
            ++ (notifyForest ch2 (if truthy pc then sl pc else JSVal.undefined) JSVal.undefined
                ++ notifyForest sib2 pc JSVal.undefined))) :=
  ⟨by decide, by decide,
   C9_notify_depth_first 0 1 (Forest.node 1 1 (fun x => x)
      (Forest.node 2 1 (fun x => x) Forest.nil Forest.nil) Forest.nil)
      (JSVal.num 1) JSVal.undefined 1 2 (by decide) (by decide)⟩
